import Mathlib

/-!
Verification of `metalsmith-layouts` (`src/lib/index.js`) against its
natural-language specification.

The plugin applies layout templates to a collection of in-memory files.
This file gives a shallow embedding of the plugin:

* `Val` models the JavaScript values that occur in file metadata
  (strings, numbers, and `Buffer`s);
* `FileRec` models one metalsmith file record: a `contents` field plus the
  remaining metadata fields as an association list;
* `Files` models the mutable file collection as an association list from
  file keys to records, in JavaScript object-key insertion order;
* `getLayoutPath`, `check`, the selection loop (`select`), `convert`
  and the two-phase driver (`runPhase` / `runPlugin`) are translated
  line by line from `src/lib/index.js`;
* the external `consolidate` renderer is an opaque parameter
  `R : String → List (String × Val) → Option String`
  (template path and render context in, rendered text or failure out).

JavaScript partial behaviour that matters is modelled explicitly:
`x || y` on strings treats the empty string as falsy (`jsOrStr`), and a
dereference of `undefined` (e.g. `layout.split` when both the layout and
the default are absent) is modelled as the abort value `RunErr.typeError`
which preserves the state reached so far.
-/

namespace MetalsmithLayouts

/-- JavaScript values occurring in metalsmith file metadata: plain strings,
numbers, and byte buffers (`Buffer`).  Rendered output is written back as a
`Buffer` (`new Buffer(str)` in the source). -/
inductive Val where
  | str (s : String)
  | num (n : Int)
  | buf (s : String)
deriving DecidableEq, Repr

/-- JavaScript `String(v)` / `v.toString()` for the values of `Val`;
used for `data.contents = data.contents.toString()`. -/
def Val.toStr : Val → String
  | .str s => s
  | .num n => toString n
  | .buf s => s

/-- One metalsmith file record: the `contents` field (always present in a
metalsmith file) plus the remaining metadata fields (including the layout
field) as an association list. -/
structure FileRec where
  contents : Val
  fields : List (String × Val)
deriving DecidableEq, Repr

/-- The file collection: an association list from file key to record, in
JavaScript object-key insertion order. -/
abbrev Files := List (String × FileRec)

/-- First-match lookup in an association list (JavaScript property read for
a map with unique keys). -/
def lookupA {α : Type} : List (String × α) → String → Option α
  | [], _ => none
  | (k', v) :: r, k => if k' = k then some v else lookupA r k

/-- JavaScript property write `obj[k] = v`: update the binding in place if
the key is present, otherwise append it (insertion order). -/
def setA {α : Type} : List (String × α) → String → α → List (String × α)
  | [], k, v => [(k, v)]
  | (k', v') :: r, k, v => if k' = k then (k, v) :: r else (k', v') :: setA r k v

/-- JavaScript `delete obj[k]`: remove the binding for `k`. -/
def eraseA {α : Type} : List (String × α) → String → List (String × α)
  | [], _ => []
  | (k', v) :: r, k => if k' = k then eraseA r k else (k', v) :: eraseA r k

/-- Collection lookup `files[file]`. -/
def lookupF (fs : Files) (k : String) : Option FileRec := lookupA fs k

/-- Collection write `files[file] = data`. -/
def setF (fs : Files) (k : String) (d : FileRec) : Files := setA fs k d

/-- Collection delete `delete files[file]`. -/
def eraseF (fs : Files) (k : String) : Files := eraseA fs k

/-- Metadata field read `data[key]` (on the non-`contents` fields). -/
def FileRec.get? (d : FileRec) (k : String) : Option Val := lookupA d.fields k

/-- The file's layout field `data[layoutKey]`, as a string when present.
Layout identifiers are strings in every supported configuration; a
non-string value in the layout field is outside this model. -/
def layoutOf (d : FileRec) (key : String) : Option String :=
  match lookupA d.fields key with
  | some (Val.str s) => some s
  | _ => none

/-- JavaScript truthiness of an optional string: `undefined` and `""` are
falsy. -/
def truthyS : Option String → Bool
  | none => false
  | some s => s != ""

/-- JavaScript `a || b` on two optional strings (`layout = layout || def`):
the left operand when truthy, otherwise the right operand. -/
def jsOrStr (a b : Option String) : Option String :=
  match a with
  | some s => if s = "" then b else some s
  | none => b

/-- JavaScript `s.split(c)` on a single-character separator, on the
character list of the string: it never returns an empty list, and
`"".split(c)` is `[""]`, matching JavaScript. -/
def splitOnChar (c : Char) : List Char → List (List Char)
  | [] => [[]]
  | x :: xs =>
    let r := splitOnChar c xs
    if x = c then [] :: r
    else
      match r with
      | [] => [[x]]
      | y :: ys => (x :: y) :: ys

/-- Whether a character occurs in a string (the regular expression test
`/\./.test(s)` instantiated at one character). -/
def containsChar (c : Char) (s : String) : Bool := s.data.any (· = c)

/-- The last `/`-separated segment of a string: `s.split('/').pop()`. -/
def lastSegment (s : String) : String :=
  String.mk ((splitOnChar '/' s.data).getLastD [])

/--
The function `getLayoutPath` from `src/lib/index.js` (lines 112–119):

```js
function getLayoutPath(layout) {
  layout = layout || def;
  if(!/\./.test(layout.split('/').pop()))
    layout += '.' + layoutExtension;
  return layout;
}
```

`none` as the result models the JavaScript `TypeError` raised by
`layout.split` when `layout || def` is `undefined` (both absent, or the
layout id empty and the default absent). -/
def getLayoutPath (layout defId : Option String) (layoutExtension : String) :
    Option String :=
  match jsOrStr layout defId with
  | none => none
  | some l =>
    if containsChar '.' (lastSegment l) then some l
    else some (l ++ "." ++ layoutExtension)

/-- The call `metalsmith.path(dir, p)`: composition of the template directory and the
resolved layout id into the template lookup key.  The metalsmith root is an
external constant and is left out of the model; only the injectivity-free
string composition matters to the plugin. -/
def msPath (dir p : String) : String := dir ++ "/" ++ p

/-! ## Node `path` helpers used by the rename step -/

/-- Rejoin `/`-separated segments (the inverse of `splitOnChar '/'` on the
kept segments). -/
def joinSlash : List (List Char) → List Char
  | [] => []
  | [x] => x
  | x :: xs => x ++ '/' :: joinSlash xs

/-- Node `path.parse(p).dir` for POSIX paths without trailing slashes: everything
before the last `/` (`"/"` for a file directly under the root, `""` when
there is no `/`). -/
def pathDir (p : String) : String :=
  let parts := splitOnChar '/' p.data
  match parts with
  | [] => ""
  | [_] => ""
  | _ =>
    let d := joinSlash parts.dropLast
    if d = [] then "/" else String.mk d

/-- The basename of `p`: the part after the last `/`. -/
def pathBase (p : String) : String :=
  String.mk ((splitOnChar '/' p.data).getLastD [])

/-- Node `path.parse(p).name`: the basename with its last extension removed.
A dot at position 0 of the basename (a hidden file such as `.bashrc`) does
not start an extension, matching Node. -/
def pathName (p : String) : String :=
  let cs := (pathBase p).data
  match cs.reverse.findIdx? (· = '.') with
  | none => pathBase p
  | some r =>
    let i := cs.length - 1 - r
    if i = 0 then pathBase p else String.mk (cs.take i)

/-- Node `path.join(dir, base)` for the shapes produced by `path.parse`:
an empty directory contributes nothing, the root contributes a single
slash. -/
def pathJoin (d f : String) : String :=
  if d = "" then f else if d = "/" then "/" ++ f else d ++ "/" ++ f

/-- The key a file is stored under after the rename step of `convert`
(lines 155–162): with `rename` enabled the extension is replaced by
`.html`, otherwise the key is unchanged. -/
def renameTarget (rename : Bool) (k : String) : String :=
  if rename then pathJoin (pathDir k) (pathName k ++ ".html") else k

/-! ## Data merge (`convert`, lines 149–151) -/

/-- Shallow `extend(target, src)`: assign every binding of `src` onto
`target`, in order, with JavaScript property-write semantics. -/
def extendMap (target src : List (String × Val)) : List (String × Val) :=
  src.foldl (fun acc p => setA acc p.1 p.2) target

/-- The deep clone `extend(true, {}, params)` of the extra-params bag.  On
the first-order values of `Val` a deep copy is value-identity; the clone's
purpose in the source (isolating later renders from mutation of a shared
base) has no observable effect in a pure model. -/
def deepClone (ps : List (String × Val)) : List (String × Val) := ps

/-- The file record seen as the render-data object: its metadata fields
plus the `contents` field. -/
def dataToMap (d : FileRec) : List (String × Val) :=
  ("contents", d.contents) :: d.fields

/-- The render context `extend({}, clonedParams, metadata, data)` of
`convert` (line 151), built from the extra-params bag, the site metadata
and the file's own data object. -/
def buildClone (params metadata dataMap : List (String × Val)) :
    List (String × Val) :=
  extendMap (extendMap (extendMap [] (deepClone params)) metadata) dataMap

/-! ## Selection predicate -/

/-- Modelled from the spec: the selection predicate implemented by the
helper `src/lib/helpers/check.js`, which `src/lib/index.js` requires but
whose source is not part of this repository snapshot.  Spec §4.2: a file is
skipped iff (a pattern is configured and the file's key does not match it
and the file has no explicit layout value — files with an explicit layout
are always selected regardless of pattern) or (no pattern is configured and
neither the file nor the default supplies a layout); otherwise it is
selected.  "Supplies a layout" is JavaScript truthiness of the value.  The
helper receives the collection and the key and reads `files[file]` itself;
here the looked-up record is passed directly. -/
def check (pattern : Option (String → Bool)) (defId : Option String)
    (layoutKey : String) (fileKey : String) (data : FileRec) : Bool :=
  let explicit := truthyS (layoutOf data layoutKey)
  let defSup := truthyS defId
  let skip :=
    match pattern with
    | some p => !(p fileKey) && !explicit
    | none => !explicit && !defSup
  !skip

/-! ## Options and setup (`plugin`, lines 54–91) -/

/-- The raw options object of `plugin(opts)`.  The recognized option names
are those of the `settings` list in the source; anything else belongs to
the extra-params bag, modelled as the explicit list `params` (the
`omit(opts, settings)` of line 91).  Option values that are absent are
`none`; `rename` is read only for truthiness.  The externally-facing
options for partials and `exposeConsolidate` configure the out-of-scope
partial loader and engine hook and are not modelled. -/
structure Opts where
  engine : Option String := none
  default : Option String := none
  directory : Option String := none
  pattern : Option (String → Bool) := none
  rename : Bool := false
  layoutKey : Option String := none
  layoutExtension : Option String := none
  params : List (String × Val) := []

/-- The argument of `plugin`: either a bare engine-name string or an
options object. -/
inductive JsOpts where
  | str (s : String)
  | obj (o : Opts)

/-- Lines 61–63: a bare string is turned into `{engine: opts}`. -/
def normOpts : JsOpts → Opts
  | .str s => { engine := some s }
  | .obj o => o

/-- The per-run configuration resolved from the options (lines 79–91),
after the setup checks have passed. -/
structure Config where
  defId : Option String
  dir : String
  engine : String
  layoutExtension : String
  pattern : Option (String → Bool)
  rename : Bool
  layoutKey : String
  params : List (String × Val)

/-- JavaScript `opt || dflt` for an optional string option. -/
def jsOrD (o : Option String) (dflt : String) : String :=
  match o with
  | some s => if s = "" then dflt else s
  | none => dflt

/-- Errors a run can surface: a setup (configuration) error thrown before
the plugin function is built, a `TypeError` from dereferencing
`undefined`, or a wrapped renderer failure carrying the layout id and the
(possibly renamed) file key from the composed message of lines 166–167. -/
inductive RunErr where
  | config (msg : String)
  | typeError
  | render (layout : Option String) (file : String)
deriving DecidableEq, Repr

/-- The setup part of `plugin` (lines 54–91): string-option normalization,
the two engine checks, and resolution of the per-run configuration.  The
supported-engine registry of `consolidate` is external and passed in as
`reg`. -/
def pluginSetup (reg : List String) (opts : JsOpts) : Except String Config :=
  let o := normOpts opts
  match o.engine with
  | none => .error "\"engine\" option required"
  | some e =>
    if e = "" then .error "\"engine\" option required"
    else if e ∉ reg then .error ("Unknown template engine: \"" ++ e ++ "\"")
    else .ok
      { defId := o.default
        dir := jsOrD o.directory "layouts"
        engine := e
        layoutExtension := jsOrD o.layoutExtension ""
        pattern := o.pattern
        rename := o.rename
        layoutKey := jsOrD o.layoutKey "layout"
        params := o.params }

/-! ## The render pipeline -/

/-- Outcome of one `convert` call: success, a renderer failure reported
through the callback (`done(err)`), or a synchronous JavaScript throw that
aborts the surrounding loop. -/
inductive StepRes where
  | ok
  | fail (e : RunErr)
  | crash (e : RunErr)
deriving DecidableEq, Repr

/-- The resolved template path of a file record under a configuration:
`metalsmith.path(dir, getLayoutPath(data[layoutKey]))`; `none` when
`getLayoutPath` raises a `TypeError`. -/
def tmplOfRec (cfg : Config) (d : FileRec) : Option String :=
  (getLayoutPath (layoutOf d cfg.layoutKey) cfg.defId cfg.layoutExtension).map
    (msPath cfg.dir)

/-- The function `convert` from `src/lib/index.js` (lines 145–177): look the file up,
build the render context, resolve the template path, delete the old key
and compute the new one when `rename` is set, then call the renderer; on
success store the rendered contents under the (possibly renamed) key, on
failure report the wrapped error through the callback.  The renderer `R`
is the external `consolidate[engine]`. -/
def convert (R : String → List (String × Val) → Option String) (cfg : Config)
    (metadata : List (String × Val)) (fs : Files) (file : String) :
    Files × StepRes :=
  match lookupF fs file with
  | none => (fs, .crash .typeError)
  | some data =>
    let clone := buildClone cfg.params metadata (dataToMap data)
    match getLayoutPath (layoutOf data cfg.layoutKey) cfg.defId
        cfg.layoutExtension with
    | none => (fs, .crash .typeError)
    | some lp =>
      let str := msPath cfg.dir lp
      let fs' := if cfg.rename then eraseF fs file else fs
      let file' := renameTarget cfg.rename file
      match R str clone with
      | none => (fs', .fail (.render (layoutOf data cfg.layoutKey) file'))
      | some out =>
        (setF fs' file' { data with contents := .buf out }, .ok)

/-- One phase of `async.each(keys, convert, cb)`: every item is started, so
every item's conversion runs to completion; the callback receives the
first error in iteration order.  A synchronous throw (`crash`) propagates
immediately and stops the loop. -/
def runPhase (conv : Files → String → Files × StepRes) :
    List String → Files → Files × Option RunErr
  | [], fs => (fs, none)
  | k :: ks, fs =>
    match conv fs k with
    | (fs', .ok) => runPhase conv ks fs'
    | (fs', .fail e) =>
      let r := runPhase conv ks fs'
      (r.1, some e)
    | (fs', .crash e) => (fs', some e)

/-! ## Selection loop (lines 124–140) -/

/-- Line 131, `data.contents = data.contents.toString()`. -/
def stringify (d : FileRec) : FileRec := { d with contents := .str d.contents.toStr }

/-- The body of the `Object.keys(files).forEach` selection loop
(lines 124–140), iterating the key list computed before the loop: skip
files the check rejects; stringify selected files in place; resolve the
template path (a `TypeError` there aborts the run, keeping the state
reached so far); register the first file per template path as its seed in
`templates` and every later one in `matches`.  The seed test is the
JavaScript truthiness test `!templates[template]`, so a stored seed key
that is the empty string is treated as absent and overwritten. -/
def selectGo (cfg : Config) :
    List String → Files → List (String × String) → List (String × FileRec) →
    Files × List (String × String) × List (String × FileRec) × Option RunErr
  | [], fs, tm, ma => (fs, tm, ma, none)
  | k :: ks, fs, tm, ma =>
    match lookupF fs k with
    | none => (fs, tm, ma, some .typeError)
    | some data =>
      if check cfg.pattern cfg.defId cfg.layoutKey k data then
        let data' := stringify data
        let fs' := setF fs k data'
        match getLayoutPath (layoutOf data' cfg.layoutKey) cfg.defId
            cfg.layoutExtension with
        | none => (fs', tm, ma, some .typeError)
        | some lp =>
          let t := msPath cfg.dir lp
          match lookupA tm t with
          | none => selectGo cfg ks fs' (tm ++ [(t, k)]) ma
          | some v =>
            if v = "" then selectGo cfg ks fs' (setA tm t k) ma
            else selectGo cfg ks fs' tm (ma ++ [(k, data')])
      else selectGo cfg ks fs tm ma

/-- The whole selection pass over `Object.keys(files)`. -/
def select (cfg : Config) (files : Files) :
    Files × List (String × String) × List (String × FileRec) × Option RunErr :=
  selectGo cfg (files.map Prod.fst) files [] []

/-- The plugin run (lines 96–192): selection, then phase 1 over the seed
file keys (`each(templates, convert, renderFiles)` iterates the values of
`templates`), then — only when phase 1 reported no error — phase 2 over
the follower keys (`each(Object.keys(matches), convert, done)`).  The
result pairs the final collection with the error surfaced to `done`. -/
def runPlugin (R : String → List (String × Val) → Option String)
    (cfg : Config) (metadata : List (String × Val)) (files : Files) :
    Files × Option RunErr :=
  match select cfg files with
  | (fs0, _, _, some e) => (fs0, some e)
  | (fs0, tm, ma, none) =>
    match runPhase (convert R cfg metadata) (tm.map Prod.snd) fs0 with
    | (fs1, some e) => (fs1, some e)
    | (fs1, none) => runPhase (convert R cfg metadata) (ma.map Prod.fst) fs1

/-- Construction followed by a run: a setup error surfaces as a
configuration error with the file collection untouched (the thrown
`Error` of lines 66–73 occurs before the plugin function exists). -/
def runFull (reg : List String) (opts : JsOpts)
    (R : String → List (String × Val) → Option String)
    (metadata : List (String × Val)) (files : Files) : Files × Option RunErr :=
  match pluginSetup reg opts with
  | .error msg => (files, some (.config msg))
  | .ok cfg => runPlugin R cfg metadata files

/-- The selection outcome of one file on its original record: `some t`
when the check selects it and its template path resolves to `t`, `none`
when it is skipped (the value is also `none` when the check selects it but
path resolution would crash, a case the partition theorems exclude). -/
def selTm (cfg : Config) (p : String × FileRec) : Option String :=
  if check cfg.pattern cfg.defId cfg.layoutKey p.1 p.2 then tmplOfRec cfg p.2
  else none

/-- A pure mirror of the selection loop over the file list itself (key and
original record paired), used to reason about `selectGo`, whose steps read
the mutating collection: over a collection with distinct keys, `selectGo`
computes exactly this (theorem `selectGo_eq_selPure`), because the
in-place stringification of line 131 never changes a layout field. -/
def selPure (cfg : Config) :
    List (String × FileRec) → List (String × String) → List (String × FileRec) →
    List (String × String) × List (String × FileRec) × Option RunErr
  | [], tm, ma => (tm, ma, none)
  | (k, d) :: ps, tm, ma =>
    if check cfg.pattern cfg.defId cfg.layoutKey k d then
      match getLayoutPath (layoutOf d cfg.layoutKey) cfg.defId
          cfg.layoutExtension with
      | none => (tm, ma, some .typeError)
      | some lp =>
        let t := msPath cfg.dir lp
        match lookupA tm t with
        | none => selPure cfg ps (tm ++ [(t, k)]) ma
        | some v =>
          if v = "" then selPure cfg ps (setA tm t k) ma
          else selPure cfg ps tm (ma ++ [(k, stringify d)])
    else selPure cfg ps tm ma

/-! ## Concrete inputs shared by witnesses and counterexamples -/

/-- A concrete configuration (engine `ejs`, default directory, no pattern,
no default layout) with a selectable `rename` flag. -/
def demoCfg (rename : Bool) : Config :=
  { defId := none, dir := "layouts", engine := "ejs", layoutExtension := "",
    pattern := none, rename := rename, layoutKey := "layout", params := [] }

/-- A concrete file record with an explicit layout `page.ejs`. -/
def demoRec : FileRec :=
  { contents := .str "body", fields := [("layout", .str "page.ejs")] }

/-- A renderer that always succeeds with the text `OUT`. -/
def demoR : String → List (String × Val) → Option String := fun _ _ => some "OUT"

/-- A renderer that always fails. -/
def demoFailR : String → List (String × Val) → Option String := fun _ _ => none

/-- A file record with no layout field. -/
def plainRec (body : String) : FileRec := { contents := .str body, fields := [] }

/-- A file record with the given explicit layout id. -/
def layoutRec (body layout : String) : FileRec :=
  { contents := .str body, fields := [("layout", .str layout)] }

/-- A renderer that fails exactly on the template path
`layouts/broken.ejs` and otherwise renders the text `R`. -/
def brokenR : String → List (String × Val) → Option String :=
  fun str _ => if str = "layouts/broken.ejs" then none else some "R"

/-- Two files sharing the explicit layout `page.ejs`: `a.md` becomes the
seed, `b.md` the follower. -/
def twoFiles : Files :=
  [("a.md", layoutRec "A" "page.ejs"), ("b.md", layoutRec "B" "page.ejs")]

/-- A collection in which the seed `a.md` of `page.ejs` renames onto the
key of its own follower `a.html`, while the second seed `b.md` uses the
failing layout `broken.ejs`. -/
def collideFiles : Files :=
  [("a.md", layoutRec "A" "page.ejs"),
   ("a.html", layoutRec "F" "page.ejs"),
   ("b.md", layoutRec "B" "broken.ejs")]

/-- A selected file `post.md` whose rename target `post.html` is the key
of a file the check rejects. -/
def overwriteFiles : Files :=
  [("post.md", layoutRec "P" "page.ejs"), ("post.html", plainRec "orig")]

/-- A collection whose first file has the empty string as its key. -/
def emptyKeyFiles : Files :=
  [("", layoutRec "E" "page.ejs"), ("a.md", layoutRec "A" "page.ejs")]

/-! ## Association-list lemmas -/

theorem lookupA_setA {α : Type} (l : List (String × α)) (k k' : String) (v : α) :
    lookupA (setA l k v) k' = if k = k' then some v else lookupA l k' := by
  induction l with
  | nil => by_cases h : k = k' <;> simp [setA, lookupA, h]
  | cons p r ih =>
    obtain ⟨a, b⟩ := p
    by_cases hak : a = k
    · subst hak
      by_cases h : a = k' <;> simp [setA, lookupA, h]
    · by_cases h : a = k'
      · subst h
        have hka : k ≠ a := fun hh => hak hh.symm
        simp [setA, lookupA, hak, hka]
      · simp [setA, lookupA, hak, h, ih]

theorem lookupA_eraseA_self {α : Type} (l : List (String × α)) (k : String) :
    lookupA (eraseA l k) k = none := by
  induction l with
  | nil => simp [eraseA, lookupA]
  | cons p r ih =>
    obtain ⟨a, b⟩ := p
    by_cases h : a = k <;> simp [eraseA, lookupA, h, ih]

theorem lookupA_eraseA_ne {α : Type} (l : List (String × α)) (k k' : String)
    (h : k' ≠ k) : lookupA (eraseA l k) k' = lookupA l k' := by
  induction l with
  | nil => simp [eraseA, lookupA]
  | cons p r ih =>
    obtain ⟨a, b⟩ := p
    by_cases hk : a = k
    · subst hk
      have h2 : a ≠ k' := fun hh => h hh.symm
      simp [eraseA, lookupA, h2, ih]
    · by_cases h2 : a = k' <;> simp [eraseA, lookupA, hk, h2, h, ih]

theorem lookupA_append {α : Type} (l₁ l₂ : List (String × α)) (k : String) :
    lookupA (l₁ ++ l₂) k = (lookupA l₁ k).orElse (fun _ => lookupA l₂ k) := by
  induction l₁ with
  | nil => simp [lookupA, Option.orElse]
  | cons p r ih =>
    obtain ⟨a, b⟩ := p
    by_cases h : a = k <;> simp [lookupA, h, ih, Option.orElse]

theorem lookupA_extendMap (t s : List (String × Val)) (k : String) :
    lookupA (extendMap t s) k =
      (lookupA s.reverse k).orElse (fun _ => lookupA t k) := by
  induction s generalizing t with
  | nil => simp [extendMap, lookupA, Option.orElse]
  | cons p r ih =>
    obtain ⟨a, b⟩ := p
    have h1 : extendMap t ((a, b) :: r) = extendMap (setA t a b) r := rfl
    rw [h1, ih, List.reverse_cons, lookupA_append, lookupA_setA]
    cases hr : lookupA r.reverse k with
    | some x => simp [Option.orElse]
    | none =>
      by_cases h : a = k <;> simp [Option.orElse, lookupA, h]

/-! ## Claim C3: data-merge precedence -/

/-- C3 — For every render, the render context is built by merging, lowest
precedence to highest, the (deep-copied) extra-params bag, then site
metadata, then the file's own fields, with key collisions resolving toward
the higher-precedence source; in particular `extraParams={a:1,b:1}`,
`metadata={b:2,c:2}`, `fileData={c:3}` yields exactly `{a:1,b:2,c:3}`.
The first conjunct characterizes every key of the context built by
`buildClone` (the `extend({}, clonedParams, metadata, data)` of line 151):
the file data's binding when present, else the metadata's, else the
extra-params bag's.  The second conjunct is the spec's concrete example.
Deep-copying of the bag is value-identity in this pure model, so freshness
of the context is inherent. -/
theorem c3_data_merge :
    (∀ (params metadata dataMap : List (String × Val)) (k : String),
      lookupA (buildClone params metadata dataMap) k =
        (lookupA dataMap.reverse k).orElse (fun _ =>
          (lookupA metadata.reverse k).orElse (fun _ =>
            lookupA params.reverse k))) ∧
    buildClone [("a", .num 1), ("b", .num 1)] [("b", .num 2), ("c", .num 2)]
        [("c", .num 3)] =
      [("a", .num 1), ("b", .num 2), ("c", .num 3)] := by
  constructor
  · intro params metadata dataMap k
    simp only [buildClone, deepClone, lookupA_extendMap, lookupA]
    cases lookupA dataMap.reverse k <;>
      cases lookupA metadata.reverse k <;>
        cases lookupA params.reverse k <;> simp [Option.orElse]
  · decide

/-! ## Claim C4: totality of the path resolver -/

/-- C4 counterexample — the claim says the layout-path resolution function
"has no error cases" and in particular "returns a value (an
`undefined`-like empty id)" when both the layout id and the default are
absent.  On the code, that case evaluates `layout.split('/')` with
`layout === undefined` and raises a `TypeError`; in the model the raised
error is the result `none`, not a value. -/
theorem c4_counterexample : getLayoutPath none none "html" = none := by decide

/-- C4 (amended) — layout-path resolution is total and error-free whenever
the substituted id exists, i.e. whenever the layout id is present and
non-empty or the default is present; only the both-absent case (layout
absent or empty and default absent) raises a `TypeError` instead of
returning a value. -/
theorem c4_resolution_total_when_id_present (layout defId : Option String)
    (ext : String) (h : (jsOrStr layout defId).isSome = true) :
    (getLayoutPath layout defId ext).isSome = true := by
  cases hj : jsOrStr layout defId with
  | none => rw [hj] at h; simp at h
  | some l =>
    simp only [getLayoutPath, hj]
    split <;> rfl

/-- C4 witness — the amended totality theorem applied at a concrete
present layout id. -/
theorem c4_witness :
    (jsOrStr (some "post") none).isSome = true ∧
    (getLayoutPath (some "post") none "html").isSome = true :=
  ⟨by decide, c4_resolution_total_when_id_present (some "post") none "html" (by decide)⟩

/-! ## Claim C5: substitution and extension appending -/

/-- C5 — When the layout id is absent or empty the default is substituted
(first conjunct: resolution then behaves exactly as if the default were
the id); if the last `/`-separated segment of the resulting id contains no
`.`, the string `"."` plus the configured layout extension is appended
(second conjunct), otherwise the id is returned unchanged (third
conjunct); with the empty extension the result carries a literal trailing
dot (fourth conjunct). -/
theorem c5_layout_id_resolution :
    (∀ (layout : Option String) (d ext : String),
      (layout = none ∨ layout = some "") →
      getLayoutPath layout (some d) ext = getLayoutPath (some d) (some d) ext) ∧
    (∀ (l : String) (defId : Option String) (ext : String), l ≠ "" →
      containsChar '.' (lastSegment l) = false →
      getLayoutPath (some l) defId ext = some (l ++ "." ++ ext)) ∧
    (∀ (l : String) (defId : Option String) (ext : String), l ≠ "" →
      containsChar '.' (lastSegment l) = true →
      getLayoutPath (some l) defId ext = some l) ∧
    (∀ (l : String) (defId : Option String), l ≠ "" →
      containsChar '.' (lastSegment l) = false →
      getLayoutPath (some l) defId "" = some (l ++ ".")) := by
  refine ⟨?_, ?_, ?_, ?_⟩
  · intro layout d ext h
    rcases h with h | h <;> subst h <;> by_cases hd : d = "" <;>
      simp [getLayoutPath, jsOrStr, hd]
  · intro l defId ext hl hc
    simp [getLayoutPath, jsOrStr, hl, hc]
  · intro l defId ext hl hc
    simp [getLayoutPath, jsOrStr, hl, hc]
  · intro l defId hl hc
    simp [getLayoutPath, jsOrStr, hl, hc]

/-- C5 witness — the resolution theorem applied at concrete inputs:
an empty layout id substitutes the default `"post"`, and `"post"` with the
empty extension resolves to the literal `"post."`. -/
theorem c5_witness :
    ((some "" : Option String) = none ∨ (some "" : Option String) = some "") ∧
    getLayoutPath (some "") (some "post") "ejs" =
      getLayoutPath (some "post") (some "post") "ejs" ∧
    ("post" ≠ "" ∧ containsChar '.' (lastSegment "post") = false) ∧
    getLayoutPath (some "post") none "" = some ("post" ++ ".") :=
  ⟨Or.inr rfl,
   c5_layout_id_resolution.1 (some "") "post" "ejs" (Or.inr rfl),
   ⟨by decide, by decide⟩,
   c5_layout_id_resolution.2.2.2 "post" none (by decide) (by decide)⟩

/-! ## Claim C10: string option shorthand -/

/-- C10 — Calling the plugin constructor with a bare string `s` is
equivalent to calling it with the options object `{engine: s}`: the
resolved setup result (configuration or setup error) is identical, with
every other option at its default value. -/
theorem c10_string_option_equivalence :
    ∀ (reg : List String) (s : String),
      pluginSetup reg (JsOpts.str s) =
        pluginSetup reg (JsOpts.obj { engine := some s }) :=
  fun _ _ => rfl

/-! ## Claim C8: setup-time engine errors -/

/-- C8 — Constructing the plugin with a missing (or empty, hence falsy)
`engine` option, or with an engine name not present in the
supported-engine registry, fails at setup with a configuration error,
and the file collection of a subsequent run is returned untouched: the
error is thrown before any file is read or mutated. -/
theorem c8_engine_config_error (reg : List String) (opts : JsOpts)
    (R : String → List (String × Val) → Option String)
    (md : List (String × Val)) (files : Files)
    (h : (normOpts opts).engine = none ∨ (normOpts opts).engine = some "" ∨
      ∃ s, (normOpts opts).engine = some s ∧ s ∉ reg) :
    ∃ msg, runFull reg opts R md files = (files, some (.config msg)) := by
  have hsetup : ∃ msg, pluginSetup reg opts = .error msg := by
    rcases h with h | h | ⟨s, hs, hmem⟩
    · exact ⟨"\"engine\" option required", by simp [pluginSetup, h]⟩
    · exact ⟨"\"engine\" option required", by simp [pluginSetup, h]⟩
    · by_cases hse : s = ""
      · exact ⟨"\"engine\" option required", by simp [pluginSetup, hs, hse]⟩
      · exact ⟨"Unknown template engine: \"" ++ s ++ "\"",
          by simp [pluginSetup, hs, hse, hmem]⟩
  obtain ⟨msg, hmsg⟩ := hsetup
  exact ⟨msg, by simp [runFull, hmsg]⟩

/-- C8 witness — the setup-error theorem applied to an options object with
no engine, over a one-file collection. -/
theorem c8_witness :
    ((normOpts (JsOpts.obj {})).engine = none ∨
      (normOpts (JsOpts.obj {})).engine = some "" ∨
      ∃ s, (normOpts (JsOpts.obj {})).engine = some s ∧ s ∉ ["ejs"]) ∧
    ∃ msg, runFull ["ejs"] (JsOpts.obj {}) (fun _ _ => none) []
        [("a.md", { contents := .str "x", fields := [] })] =
      ([("a.md", { contents := .str "x", fields := [] })], some (.config msg)) :=
  ⟨Or.inl rfl,
   c8_engine_config_error ["ejs"] (JsOpts.obj {}) (fun _ _ => none) []
     [("a.md", { contents := .str "x", fields := [] })] (Or.inl rfl)⟩

/-! ## Claims C6 and C7: the rename step of `convert` -/

/-- C6 (amended) — For every selected file under `rename`, when its render
succeeds the collection afterwards contains the file, with rendered
contents, under the new key with the same directory and base name and the
extension replaced by `.html`; and, provided that new key differs from the
old key (i.e. the extension was not already `.html`), the old key is no
longer present. -/
theorem c6_rename_success (R : String → List (String × Val) → Option String)
    (cfg : Config) (md : List (String × Val)) (fs : Files)
    (file lp out : String) (data : FileRec)
    (hr : cfg.rename = true)
    (hd : lookupF fs file = some data)
    (hlp : getLayoutPath (layoutOf data cfg.layoutKey) cfg.defId
      cfg.layoutExtension = some lp)
    (hR : R (msPath cfg.dir lp) (buildClone cfg.params md (dataToMap data)) =
      some out) :
    (convert R cfg md fs file).2 = .ok ∧
    lookupF (convert R cfg md fs file).1
        (pathJoin (pathDir file) (pathName file ++ ".html")) =
      some { data with contents := .buf out } ∧
    (pathJoin (pathDir file) (pathName file ++ ".html") ≠ file →
      lookupF (convert R cfg md fs file).1 file = none) := by
  have hc : convert R cfg md fs file =
      (setF (eraseF fs file) (pathJoin (pathDir file) (pathName file ++ ".html"))
        { data with contents := .buf out }, .ok) := by
    simp [convert, hd, hlp, hR, hr, renameTarget]
  refine ⟨by rw [hc], ?_, ?_⟩
  · rw [hc]
    simp [lookupF, setF, lookupA_setA]
  · intro hne
    rw [hc]
    simp only [lookupF, setF]
    rw [lookupA_setA]
    simp only [if_neg hne]
    exact lookupA_eraseA_self fs file

/-- C6 witness — renaming `"post.md"`: after a successful render the
collection contains `"post.html"` and no longer contains `"post.md"`. -/
theorem c6_witness :
    ((demoCfg true).rename = true ∧
      lookupF [("post.md", demoRec)] "post.md" = some demoRec ∧
      getLayoutPath (layoutOf demoRec (demoCfg true).layoutKey)
        (demoCfg true).defId (demoCfg true).layoutExtension = some "page.ejs" ∧
      demoR (msPath (demoCfg true).dir "page.ejs")
        (buildClone (demoCfg true).params [] (dataToMap demoRec)) = some "OUT") ∧
    lookupF (convert demoR (demoCfg true) [] [("post.md", demoRec)] "post.md").1
        (pathJoin (pathDir "post.md") (pathName "post.md" ++ ".html")) =
      some { demoRec with contents := .buf "OUT" } ∧
    lookupF (convert demoR (demoCfg true) [] [("post.md", demoRec)] "post.md").1
        "post.md" = none :=
  ⟨⟨rfl, by decide, by decide, rfl⟩,
   (c6_rename_success demoR (demoCfg true) [] [("post.md", demoRec)] "post.md"
      "page.ejs" "OUT" demoRec rfl (by decide) (by decide) rfl).2.1,
   (c6_rename_success demoR (demoCfg true) [] [("post.md", demoRec)] "post.md"
      "page.ejs" "OUT" demoRec rfl (by decide) (by decide) rfl).2.2 (by decide)⟩

/-- C6 counterexample — the claim quantifies over every selected file and
asserts the collection "no longer contains the old key" after a
successful renamed render; for a file whose key already ends in `.html`
the new key equals the old key, and the old key is still present. -/
theorem c6_counterexample :
    (convert demoR (demoCfg true) [] [("post.html", demoRec)] "post.html").2 =
      .ok ∧
    lookupF (convert demoR (demoCfg true) [] [("post.html", demoRec)]
      "post.html").1 "post.html" ≠ none := by
  constructor
  · decide
  · decide

/-- C7 — For every file processed with `rename` enabled whose render then
fails: the resulting collection is exactly the input with the old key
deleted (so the deletion happened and nothing was inserted), the wrapped
render error names the new key, the old key is absent afterwards, and the
new key is absent afterwards provided it was not previously bound to some
other file (in particular when it equals the old key). -/
theorem c7_rename_failure_loses_file
    (R : String → List (String × Val) → Option String)
    (cfg : Config) (md : List (String × Val)) (fs : Files)
    (file lp : String) (data : FileRec)
    (hr : cfg.rename = true)
    (hd : lookupF fs file = some data)
    (hlp : getLayoutPath (layoutOf data cfg.layoutKey) cfg.defId
      cfg.layoutExtension = some lp)
    (hR : R (msPath cfg.dir lp) (buildClone cfg.params md (dataToMap data)) =
      none) :
    (convert R cfg md fs file).1 = eraseF fs file ∧
    (convert R cfg md fs file).2 =
      .fail (.render (layoutOf data cfg.layoutKey)
        (pathJoin (pathDir file) (pathName file ++ ".html"))) ∧
    lookupF (convert R cfg md fs file).1 file = none ∧
    (lookupF fs (pathJoin (pathDir file) (pathName file ++ ".html")) = none →
      lookupF (convert R cfg md fs file).1
        (pathJoin (pathDir file) (pathName file ++ ".html")) = none) := by
  have hc : convert R cfg md fs file =
      (eraseF fs file,
        .fail (.render (layoutOf data cfg.layoutKey)
          (pathJoin (pathDir file) (pathName file ++ ".html")))) := by
    simp [convert, hd, hlp, hR, hr, renameTarget]
  refine ⟨by rw [hc], by rw [hc], ?_, ?_⟩
  · rw [hc]
    exact lookupA_eraseA_self fs file
  · intro hnew
    rw [hc]
    by_cases hne : pathJoin (pathDir file) (pathName file ++ ".html") = file
    · rw [hne]
      exact lookupA_eraseA_self fs file
    · rw [show lookupF (eraseF fs file)
          (pathJoin (pathDir file) (pathName file ++ ".html")) =
          lookupF fs (pathJoin (pathDir file) (pathName file ++ ".html")) from
        lookupA_eraseA_ne fs file _ hne]
      exact hnew

/-- C7 witness — a failing renamed render of `"post.md"` leaves the file
under neither `"post.md"` nor `"post.html"`. -/
theorem c7_witness :
    ((demoCfg true).rename = true ∧
      lookupF [("post.md", demoRec)] "post.md" = some demoRec ∧
      getLayoutPath (layoutOf demoRec (demoCfg true).layoutKey)
        (demoCfg true).defId (demoCfg true).layoutExtension = some "page.ejs" ∧
      demoFailR (msPath (demoCfg true).dir "page.ejs")
        (buildClone (demoCfg true).params [] (dataToMap demoRec)) = none ∧
      lookupF [("post.md", demoRec)]
        (pathJoin (pathDir "post.md") (pathName "post.md" ++ ".html")) = none) ∧
    lookupF (convert demoFailR (demoCfg true) [] [("post.md", demoRec)]
      "post.md").1 "post.md" = none ∧
    lookupF (convert demoFailR (demoCfg true) [] [("post.md", demoRec)]
      "post.md").1 (pathJoin (pathDir "post.md") (pathName "post.md" ++ ".html"))
      = none :=
  ⟨⟨rfl, by decide, by decide, rfl, by decide⟩,
   (c7_rename_failure_loses_file demoFailR (demoCfg true) [] [("post.md", demoRec)]
      "post.md" "page.ejs" demoRec rfl (by decide) (by decide) rfl).2.2.1,
   (c7_rename_failure_loses_file demoFailR (demoCfg true) [] [("post.md", demoRec)]
      "post.md" "page.ejs" demoRec rfl (by decide) (by decide) rfl).2.2.2
     (by decide)⟩

/-! ## Further association-list lemmas -/

theorem lookupA_mem_values {α : Type} (l : List (String × α)) (k : String)
    (v : α) (h : lookupA l k = some v) : v ∈ l.map Prod.snd := by
  induction l with
  | nil => simp [lookupA] at h
  | cons p r ih =>
    obtain ⟨a, b⟩ := p
    by_cases hak : a = k
    · simp [lookupA, hak] at h
      simp [h]
    · simp only [lookupA, if_neg hak] at h
      simp [ih h]

theorem lookupA_eq_none_iff {α : Type} (l : List (String × α)) (k : String) :
    lookupA l k = none ↔ k ∉ l.map Prod.fst := by
  induction l with
  | nil => simp [lookupA]
  | cons p r ih =>
    obtain ⟨a, b⟩ := p
    by_cases hak : a = k
    · simp [lookupA, hak, ih]
    · have hka : ¬k = a := fun hh => hak hh.symm
      simp [lookupA, hak, ih, hka]

theorem mem_values_setA {α : Type} (l : List (String × α)) (k : String)
    (x v : α) (h : v ∈ (setA l k x).map Prod.snd) :
    v ∈ l.map Prod.snd ∨ v = x := by
  induction l with
  | nil =>
    simp [setA] at h
    exact Or.inr h
  | cons p r ih =>
    obtain ⟨a, b⟩ := p
    by_cases hak : a = k
    · simp only [setA, if_pos hak, List.map_cons, List.mem_cons] at h
      rcases h with h | h
      · exact Or.inr h
      · exact Or.inl (by simp [h])
    · simp only [setA, if_neg hak, List.map_cons, List.mem_cons] at h
      rcases h with h | h
      · exact Or.inl (by simp [h])
      · rcases ih h with h2 | h2
        · exact Or.inl (by simp [h2])
        · exact Or.inr h2

theorem lookupA_self_of_nodup {α : Type} (l : List (String × α))
    (hnd : (l.map Prod.fst).Nodup) : ∀ p ∈ l, lookupA l p.1 = some p.2 := by
  induction l with
  | nil => simp
  | cons q r ih =>
    obtain ⟨a, b⟩ := q
    simp only [List.map_cons, List.nodup_cons] at hnd
    intro p hp
    rcases List.mem_cons.mp hp with h | h
    · rw [h]
      simp [lookupA]
    · have hne : a ≠ p.1 := by
        intro hh
        exact hnd.1 (hh ▸ List.mem_map.mpr ⟨p, h, rfl⟩)
      simp only [lookupA, if_neg hne]
      exact ih hnd.2 p h

theorem lookupA_append_left {α : Type} (l₁ l₂ : List (String × α)) (k : String)
    (v : α) (h : lookupA l₁ k = some v) : lookupA (l₁ ++ l₂) k = some v := by
  rw [lookupA_append, h]
  rfl

theorem lookupA_append_right {α : Type} (l₁ l₂ : List (String × α)) (k : String)
    (h : lookupA l₁ k = none) : lookupA (l₁ ++ l₂) k = lookupA l₂ k := by
  rw [lookupA_append, h]
  rfl

/-! ## The selection loop computed purely -/

/-- Stringification never changes a layout field. -/
theorem layoutOf_stringify (d : FileRec) (k : String) :
    layoutOf (stringify d) k = layoutOf d k := rfl

/-- Over a collection with distinct keys (JavaScript object keys are
unique), the stateful selection loop computes, in its template and match
maps and its error, exactly the pure recursion `selPure` over the original
records: the only in-place mutation during selection is stringification,
which touches no layout field. -/
theorem selectGo_eq_selPure (cfg : Config) (ps : List (String × FileRec)) :
    ∀ (fs : Files) (tm : List (String × String)) (ma : List (String × FileRec)),
    (ps.map Prod.fst).Nodup →
    (∀ p ∈ ps, lookupF fs p.1 = some p.2) →
    (selectGo cfg (ps.map Prod.fst) fs tm ma).2 = selPure cfg ps tm ma := by
  induction ps with
  | nil => intro fs tm ma _ _; rfl
  | cons p ps ih =>
    obtain ⟨k, d⟩ := p
    intro fs tm ma hnd hlk
    have hk : lookupF fs k = some d := hlk (k, d) (by simp)
    simp only [List.map_cons, List.nodup_cons] at hnd
    have hkn : k ∉ ps.map Prod.fst := hnd.1
    simp only [selectGo, selPure, hk]
    by_cases hch : check cfg.pattern cfg.defId cfg.layoutKey k d = true
    · simp only [hch, if_true, layoutOf_stringify]
      cases hlp : getLayoutPath (layoutOf d cfg.layoutKey) cfg.defId
          cfg.layoutExtension with
      | none => rfl
      | some lp =>
        dsimp only
        have hlk' : ∀ q ∈ ps, lookupF (setF fs k (stringify d)) q.1 = some q.2 := by
          intro q hq
          have hne : k ≠ q.1 := fun hh => hkn (hh ▸ List.mem_map.mpr ⟨q, hq, rfl⟩)
          rw [lookupF, setF, lookupA_setA, if_neg hne]
          exact hlk q (by simp [hq])
        cases hmt : lookupA tm (msPath cfg.dir lp) with
        | none =>
          dsimp only
          exact ih _ _ _ hnd.2 hlk'
        | some v =>
          dsimp only
          by_cases hv : v = ""
          · rw [if_pos hv, if_pos hv]
            exact ih _ _ _ hnd.2 hlk'
          · rw [if_neg hv, if_neg hv]
            exact ih _ _ _ hnd.2 hlk'
    · simp only [hch, if_false]
      exact ih _ _ _ hnd.2 (fun q hq => hlk q (by simp [hq]))

/-- Seed characterization: provided no file key is empty (so the
truthiness seed test of `!templates[template]` never mistakes a stored
seed for an absent one), the template map resolves every template path `t`
to its entry in the accumulator, or else to the first selected file in
iteration order resolving to `t`. -/
theorem selPure_seed_lookup (cfg : Config) (ps : List (String × FileRec)) :
    ∀ (tm tm' : List (String × String)) (ma ma' : List (String × FileRec)),
    (∀ v ∈ tm.map Prod.snd, v ≠ "") →
    (∀ p ∈ ps, p.1 ≠ "") →
    selPure cfg ps tm ma = (tm', ma', none) →
    ∀ t, (∀ v, lookupA tm t = some v → lookupA tm' t = some v) ∧
      (lookupA tm t = none →
        lookupA tm' t =
          ((ps.filter (fun p => selTm cfg p = some t)).head?).map Prod.fst) := by
  induction ps with
  | nil =>
    intro tm tm' ma ma' _ _ hres t
    simp only [selPure, Prod.mk.injEq] at hres
    obtain ⟨h1, -, -⟩ := hres
    subst h1
    exact ⟨fun v hv => hv, fun h0 => by simp [h0]⟩
  | cons p ps ih =>
    obtain ⟨k, d⟩ := p
    intro tm tm' ma ma' hv hk hres t
    have hkne : k ≠ "" := hk (k, d) (by simp)
    have hktail : ∀ q ∈ ps, q.1 ≠ "" := fun q hq => hk q (by simp [hq])
    by_cases hch : check cfg.pattern cfg.defId cfg.layoutKey k d = true
    · simp only [selPure, hch, if_true] at hres
      cases hlp : getLayoutPath (layoutOf d cfg.layoutKey) cfg.defId
          cfg.layoutExtension with
      | none =>
        rw [hlp] at hres
        simp [Prod.mk.injEq] at hres
      | some lp =>
        rw [hlp] at hres
        dsimp only at hres
        have hsel : selTm cfg (k, d) = some (msPath cfg.dir lp) := by
          simp [selTm, hch, tmplOfRec, hlp]
        cases hmt : lookupA tm (msPath cfg.dir lp) with
        | none =>
          rw [hmt] at hres
          dsimp only at hres
          have hv2 : ∀ v ∈ (tm ++ [(msPath cfg.dir lp, k)]).map Prod.snd,
              v ≠ "" := by
            intro v hvm
            simp only [List.map_append, List.mem_append] at hvm
            rcases hvm with h | h
            · exact hv v h
            · simp only [List.map_cons, List.map_nil, List.mem_singleton] at h
              subst h
              exact hkne
          have ihres := ih _ _ _ _ hv2 hktail hres
          constructor
          · intro v hvt
            exact (ihres t).1 v (lookupA_append_left _ _ _ _ hvt)
          · intro h0
            by_cases htt : t = msPath cfg.dir lp
            · subst htt
              have hlook : lookupA (tm ++ [(msPath cfg.dir lp, k)])
                  (msPath cfg.dir lp) = some k := by
                rw [lookupA_append_right _ _ _ h0]
                simp [lookupA]
              rw [(ihres (msPath cfg.dir lp)).1 k hlook]
              rw [List.filter_cons_of_pos (by simp [hsel])]
              simp
            · have htne : msPath cfg.dir lp ≠ t := fun hh => htt hh.symm
              have hlook : lookupA (tm ++ [(msPath cfg.dir lp, k)]) t = none := by
                rw [lookupA_append_right _ _ _ h0]
                simp [lookupA, htne]
              rw [(ihres t).2 hlook]
              rw [List.filter_cons_of_neg (by simp [hsel, htne])]
        | some v =>
          rw [hmt] at hres
          dsimp only at hres
          have hvne : v ≠ "" := hv v (lookupA_mem_values _ _ _ hmt)
          rw [if_neg hvne] at hres
          have ihres := ih _ _ _ _ hv hktail hres
          constructor
          · exact fun v' hvt => (ihres t).1 v' hvt
          · intro h0
            have htne : msPath cfg.dir lp ≠ t := by
              intro hh
              rw [hh] at hmt
              rw [h0] at hmt
              cases hmt
            rw [(ihres t).2 h0]
            rw [List.filter_cons_of_neg (by simp [hsel, htne])]
    · simp only [selPure, hch, if_false] at hres
      have ihres := ih _ _ _ _ hv hktail hres
      have hselno : selTm cfg (k, d) = none := by
        simp [selTm, hch]
      constructor
      · exact fun v hvt => (ihres t).1 v hvt
      · intro h0
        rw [(ihres t).2 h0]
        rw [List.filter_cons_of_neg (by simp [hselno])]

/-- Disjointness: seed file keys and follower file keys never meet, for
any file list with distinct keys (no empty-key assumption needed: even the
truthiness overwrite replaces a seed by a fresh key). -/
theorem selPure_disjoint (cfg : Config) (ps : List (String × FileRec)) :
    ∀ (tm tm' : List (String × String)) (ma ma' : List (String × FileRec)),
    (∀ v ∈ tm.map Prod.snd, v ∉ ma.map Prod.fst) →
    (∀ p ∈ ps, p.1 ∉ tm.map Prod.snd) →
    (∀ p ∈ ps, p.1 ∉ ma.map Prod.fst) →
    (ps.map Prod.fst).Nodup →
    selPure cfg ps tm ma = (tm', ma', none) →
    ∀ v ∈ tm'.map Prod.snd, v ∉ ma'.map Prod.fst := by
  induction ps with
  | nil =>
    intro tm tm' ma ma' hd _ _ _ hres
    simp only [selPure, Prod.mk.injEq] at hres
    obtain ⟨h1, h2, -⟩ := hres
    subst h1
    subst h2
    exact hd
  | cons p ps ih =>
    obtain ⟨k, d⟩ := p
    intro tm tm' ma ma' hd hf1 hf2 hnd hres
    simp only [List.map_cons, List.nodup_cons] at hnd
    have hkn : k ∉ ps.map Prod.fst := hnd.1
    have hf1h : k ∉ tm.map Prod.snd := hf1 (k, d) (by simp)
    have hf2h : k ∉ ma.map Prod.fst := hf2 (k, d) (by simp)
    have hf1t : ∀ q ∈ ps, q.1 ∉ tm.map Prod.snd := fun q hq => hf1 q (by simp [hq])
    have hf2t : ∀ q ∈ ps, q.1 ∉ ma.map Prod.fst := fun q hq => hf2 q (by simp [hq])
    have hfresh : ∀ q ∈ ps, q.1 ≠ k := by
      intro q hq hh
      exact hkn (hh ▸ List.mem_map.mpr ⟨q, hq, rfl⟩)
    by_cases hch : check cfg.pattern cfg.defId cfg.layoutKey k d = true
    · simp only [selPure, hch, if_true] at hres
      cases hlp : getLayoutPath (layoutOf d cfg.layoutKey) cfg.defId
          cfg.layoutExtension with
      | none =>
        rw [hlp] at hres
        simp [Prod.mk.injEq] at hres
      | some lp =>
        rw [hlp] at hres
        dsimp only at hres
        cases hmt : lookupA tm (msPath cfg.dir lp) with
        | none =>
          rw [hmt] at hres
          dsimp only at hres
          refine ih _ _ _ _ ?_ ?_ hf2t hnd.2 hres
          · intro v hvm
            simp only [List.map_append, List.mem_append] at hvm
            rcases hvm with h | h
            · exact hd v h
            · simp only [List.map_cons, List.map_nil, List.mem_singleton] at h
              subst h
              exact hf2h
          · intro q hq
            simp only [List.map_append, List.mem_append]
            rintro (h | h)
            · exact hf1t q hq h
            · simp only [List.map_cons, List.map_nil, List.mem_singleton] at h
              exact hfresh q hq h
        | some v =>
          rw [hmt] at hres
          dsimp only at hres
          by_cases hve : v = ""
          · rw [if_pos hve] at hres
            refine ih _ _ _ _ ?_ ?_ hf2t hnd.2 hres
            · intro w hwm
              rcases mem_values_setA _ _ _ _ hwm with h | h
              · exact hd w h
              · subst h
                exact hf2h
            · intro q hq hqm
              rcases mem_values_setA _ _ _ _ hqm with h | h
              · exact hf1t q hq h
              · exact hfresh q hq h
          · rw [if_neg hve] at hres
            refine ih _ _ _ _ ?_ hf1t ?_ hnd.2 hres
            · intro w hwm
              simp only [List.map_append, List.mem_append]
              rintro (h | h)
              · exact hd w hwm h
              · simp only [List.map_cons, List.map_nil, List.mem_singleton] at h
                subst h
                exact hf1h hwm
            · intro q hq
              simp only [List.map_append, List.mem_append]
              rintro (h | h)
              · exact hf2t q hq h
              · simp only [List.map_cons, List.map_nil, List.mem_singleton] at h
                exact hfresh q hq h
    · simp only [selPure, hch, if_false] at hres
      exact ih _ _ _ _ hd hf1t hf2t hnd.2 hres

/-- Union: assuming no empty file key, the seed values and follower keys
accumulated by selection are together exactly the accumulators' contents
plus the keys of the files the check selects. -/
theorem selPure_union (cfg : Config) (ps : List (String × FileRec)) :
    ∀ (tm tm' : List (String × String)) (ma ma' : List (String × FileRec)),
    (∀ v ∈ tm.map Prod.snd, v ≠ "") →
    (∀ p ∈ ps, p.1 ≠ "") →
    selPure cfg ps tm ma = (tm', ma', none) →
    ∀ k, (k ∈ tm'.map Prod.snd ∨ k ∈ ma'.map Prod.fst) ↔
      (k ∈ tm.map Prod.snd ∨ k ∈ ma.map Prod.fst ∨
        ∃ p, p ∈ ps ∧ p.1 = k ∧
          check cfg.pattern cfg.defId cfg.layoutKey p.1 p.2 = true) := by
  induction ps with
  | nil =>
    intro tm tm' ma ma' _ _ hres k
    simp only [selPure, Prod.mk.injEq] at hres
    obtain ⟨h1, h2, -⟩ := hres
    subst h1
    subst h2
    simp [or_assoc]
  | cons p ps ih =>
    obtain ⟨k₀, d⟩ := p
    intro tm tm' ma ma' hv hk hres k
    have hkne : k₀ ≠ "" := hk (k₀, d) (by simp)
    have hktail : ∀ q ∈ ps, q.1 ≠ "" := fun q hq => hk q (by simp [hq])
    by_cases hch : check cfg.pattern cfg.defId cfg.layoutKey k₀ d = true
    · simp only [selPure, hch, if_true] at hres
      cases hlp : getLayoutPath (layoutOf d cfg.layoutKey) cfg.defId
          cfg.layoutExtension with
      | none =>
        rw [hlp] at hres
        simp [Prod.mk.injEq] at hres
      | some lp =>
        rw [hlp] at hres
        dsimp only at hres
        cases hmt : lookupA tm (msPath cfg.dir lp) with
        | none =>
          rw [hmt] at hres
          dsimp only at hres
          have hv2 : ∀ v ∈ (tm ++ [(msPath cfg.dir lp, k₀)]).map Prod.snd,
              v ≠ "" := by
            intro v hvm
            simp only [List.map_append, List.mem_append] at hvm
            rcases hvm with h | h
            · exact hv v h
            · simp only [List.map_cons, List.map_nil, List.mem_singleton] at h
              subst h
              exact hkne
          rw [ih _ _ _ _ hv2 hktail hres k]
          constructor
          · rintro (h | h | h)
            · simp only [List.map_append, List.mem_append] at h
              rcases h with h | h
              · exact Or.inl h
              · simp only [List.map_cons, List.map_nil, List.mem_singleton] at h
                exact Or.inr (Or.inr ⟨(k₀, d), by simp, h.symm, hch⟩)
            · exact Or.inr (Or.inl h)
            · obtain ⟨q, hq, hq1, hq2⟩ := h
              exact Or.inr (Or.inr ⟨q, by simp [hq], hq1, hq2⟩)
          · rintro (h | h | ⟨q, hq, hq1, hq2⟩)
            · exact Or.inl (by simp [h])
            · exact Or.inr (Or.inl h)
            · rcases List.mem_cons.mp hq with hq' | hq'
              · subst hq'
                exact Or.inl (by simp [hq1.symm])
              · exact Or.inr (Or.inr ⟨q, hq', hq1, hq2⟩)
        | some v =>
          rw [hmt] at hres
          dsimp only at hres
          have hvne : v ≠ "" := hv v (lookupA_mem_values _ _ _ hmt)
          rw [if_neg hvne] at hres
          rw [ih _ _ _ _ hv hktail hres k]
          constructor
          · rintro (h | h | h)
            · exact Or.inl h
            · simp only [List.map_append, List.mem_append] at h
              rcases h with h | h
              · exact Or.inr (Or.inl h)
              · simp only [List.map_cons, List.map_nil, List.mem_singleton] at h
                exact Or.inr (Or.inr ⟨(k₀, d), by simp, h.symm, hch⟩)
            · obtain ⟨q, hq, hq1, hq2⟩ := h
              exact Or.inr (Or.inr ⟨q, by simp [hq], hq1, hq2⟩)
          · rintro (h | h | ⟨q, hq, hq1, hq2⟩)
            · exact Or.inl h
            · exact Or.inr (Or.inl (by simp [h]))
            · rcases List.mem_cons.mp hq with hq' | hq'
              · subst hq'
                exact Or.inr (Or.inl (by simp [hq1.symm]))
              · exact Or.inr (Or.inr ⟨q, hq', hq1, hq2⟩)
    · simp only [selPure, hch, if_false] at hres
      rw [ih _ _ _ _ hv hktail hres k]
      constructor
      · rintro (h | h | ⟨q, hq, hq1, hq2⟩)
        · exact Or.inl h
        · exact Or.inr (Or.inl h)
        · exact Or.inr (Or.inr ⟨q, by simp [hq], hq1, hq2⟩)
      · rintro (h | h | ⟨q, hq, hq1, hq2⟩)
        · exact Or.inl h
        · exact Or.inr (Or.inl h)
        · rcases List.mem_cons.mp hq with hq' | hq'
          · rw [hq'] at hq2
            exact absurd hq2 (by simpa [hq'] using hch)
          · exact Or.inr (Or.inr ⟨q, hq', hq1, hq2⟩)

/-- The template map's keys stay distinct: a new template path is appended
only when it is not yet a key. -/
theorem selPure_tmKeys_nodup (cfg : Config) (ps : List (String × FileRec)) :
    ∀ (tm tm' : List (String × String)) (ma ma' : List (String × FileRec)),
    (∀ v ∈ tm.map Prod.snd, v ≠ "") →
    (∀ p ∈ ps, p.1 ≠ "") →
    (tm.map Prod.fst).Nodup →
    selPure cfg ps tm ma = (tm', ma', none) →
    (tm'.map Prod.fst).Nodup := by
  induction ps with
  | nil =>
    intro tm tm' ma ma' _ _ hnd hres
    simp only [selPure, Prod.mk.injEq] at hres
    obtain ⟨h1, -, -⟩ := hres
    subst h1
    exact hnd
  | cons p ps ih =>
    obtain ⟨k₀, d⟩ := p
    intro tm tm' ma ma' hv hk hnd hres
    have hkne : k₀ ≠ "" := hk (k₀, d) (by simp)
    have hktail : ∀ q ∈ ps, q.1 ≠ "" := fun q hq => hk q (by simp [hq])
    by_cases hch : check cfg.pattern cfg.defId cfg.layoutKey k₀ d = true
    · simp only [selPure, hch, if_true] at hres
      cases hlp : getLayoutPath (layoutOf d cfg.layoutKey) cfg.defId
          cfg.layoutExtension with
      | none =>
        rw [hlp] at hres
        simp [Prod.mk.injEq] at hres
      | some lp =>
        rw [hlp] at hres
        dsimp only at hres
        cases hmt : lookupA tm (msPath cfg.dir lp) with
        | none =>
          rw [hmt] at hres
          dsimp only at hres
          have hv2 : ∀ v ∈ (tm ++ [(msPath cfg.dir lp, k₀)]).map Prod.snd,
              v ≠ "" := by
            intro v hvm
            simp only [List.map_append, List.mem_append] at hvm
            rcases hvm with h | h
            · exact hv v h
            · simp only [List.map_cons, List.map_nil, List.mem_singleton] at h
              subst h
              exact hkne
          refine ih _ _ _ _ hv2 hktail ?_ hres
          have hnin : msPath cfg.dir lp ∉ tm.map Prod.fst :=
            (lookupA_eq_none_iff _ _).mp hmt
          simp [List.nodup_append, hnd, hnin, List.disjoint_singleton]
        | some v =>
          rw [hmt] at hres
          dsimp only at hres
          have hvne : v ≠ "" := hv v (lookupA_mem_values _ _ _ hmt)
          rw [if_neg hvne] at hres
          exact ih _ _ _ _ hv hktail hnd hres
    · simp only [selPure, hch, if_false] at hres
      exact ih _ _ _ _ hv hktail hnd hres

/-! ## Frame lemmas for the render phases -/

/-- One `convert` call touches only the processed key and its rename
target: every other binding of the collection is unchanged, whatever the
renderer does. -/
theorem convert_frame (R : String → List (String × Val) → Option String)
    (cfg : Config) (md : List (String × Val)) (fs : Files) (k x : String)
    (hx1 : x ≠ k) (hx2 : renameTarget cfg.rename k ≠ x) :
    lookupF (convert R cfg md fs k).1 x = lookupF fs x := by
  unfold convert
  cases hd : lookupF fs k with
  | none => rfl
  | some data =>
    dsimp only
    cases hlp : getLayoutPath (layoutOf data cfg.layoutKey) cfg.defId
        cfg.layoutExtension with
    | none => rfl
    | some lp =>
      dsimp only
      have herase : lookupF (if cfg.rename then eraseF fs k else fs) x =
          lookupF fs x := by
        cases cfg.rename with
        | false => rfl
        | true =>
          exact lookupA_eraseA_ne fs k x hx1
      cases hR : R (msPath cfg.dir lp)
          (buildClone cfg.params md (dataToMap data)) with
      | none =>
        dsimp only
        exact herase
      | some out =>
        dsimp only
        rw [lookupF, setF, lookupA_setA, if_neg hx2]
        exact herase

/-- A whole phase touches only its keys and their rename targets. -/
theorem runPhase_frame (R : String → List (String × Val) → Option String)
    (cfg : Config) (md : List (String × Val)) (ks : List String) :
    ∀ (fs : Files) (x : String), x ∉ ks →
    (∀ k ∈ ks, renameTarget cfg.rename k ≠ x) →
    lookupF (runPhase (convert R cfg md) ks fs).1 x = lookupF fs x := by
  induction ks with
  | nil => intro fs x _ _; rfl
  | cons k ks ih =>
    intro fs x hx1 hx2
    have hxk : x ≠ k := fun hh => hx1 (by simp [hh])
    have hrt : renameTarget cfg.rename k ≠ x := hx2 k (by simp)
    have hxks : x ∉ ks := fun hh => hx1 (by simp [hh])
    have hx2t : ∀ j ∈ ks, renameTarget cfg.rename j ≠ x :=
      fun j hj => hx2 j (by simp [hj])
    have hcf := convert_frame R cfg md fs k x hxk hrt
    simp only [runPhase]
    cases hc : convert R cfg md fs k with
    | mk fs' res =>
      rw [hc] at hcf
      cases res with
      | ok =>
        dsimp only
        rw [ih fs' x hxks hx2t]
        exact hcf
      | fail e =>
        dsimp only
        rw [ih fs' x hxks hx2t]
        exact hcf
      | crash e =>
        dsimp only
        exact hcf

/-- Selection never touches a file the check rejects: its binding keeps
its original record, and its key enters neither the template map nor the
follower map, whatever else is in the collection. -/
theorem selectGo_rejected (cfg : Config) (ks : List String) :
    ∀ (fs : Files) (tm : List (String × String)) (ma : List (String × FileRec))
      (x : String) (dx : FileRec),
    lookupF fs x = some dx →
    check cfg.pattern cfg.defId cfg.layoutKey x dx = false →
    x ∉ tm.map Prod.snd →
    x ∉ ma.map Prod.fst →
    lookupF (selectGo cfg ks fs tm ma).1 x = some dx ∧
      x ∉ (selectGo cfg ks fs tm ma).2.1.map Prod.snd ∧
      x ∉ (selectGo cfg ks fs tm ma).2.2.1.map Prod.fst := by
  induction ks with
  | nil =>
    intro fs tm ma x dx hx hrej hxtm hxma
    exact ⟨hx, hxtm, hxma⟩
  | cons k ks ih =>
    intro fs tm ma x dx hx hrej hxtm hxma
    simp only [selectGo]
    cases hd : lookupF fs k with
    | none => exact ⟨hx, hxtm, hxma⟩
    | some data =>
      dsimp only
      by_cases hxk : k = x
      · subst hxk
        rw [hx] at hd
        injection hd with hd
        subst hd
        rw [if_neg (show ¬check cfg.pattern cfg.defId cfg.layoutKey k dx = true by
          rw [hrej]; exact Bool.false_ne_true)]
        exact ih fs tm ma k dx hx hrej hxtm hxma
      · by_cases hch : check cfg.pattern cfg.defId cfg.layoutKey k data = true
        · rw [if_pos hch]
          have hx' : lookupF (setF fs k (stringify data)) x = some dx := by
            rw [lookupF, setF, lookupA_setA, if_neg hxk]
            exact hx
          cases hlp : getLayoutPath (layoutOf (stringify data) cfg.layoutKey)
              cfg.defId cfg.layoutExtension with
          | none => exact ⟨hx', hxtm, hxma⟩
          | some lp =>
            dsimp only
            cases hmt : lookupA tm (msPath cfg.dir lp) with
            | none =>
              dsimp only
              refine ih _ _ _ x dx hx' hrej ?_ hxma
              simp only [List.map_append, List.mem_append]
              rintro (h | h)
              · exact hxtm h
              · simp only [List.map_cons, List.map_nil, List.mem_singleton] at h
                exact hxk h.symm
            | some v =>
              dsimp only
              by_cases hve : v = ""
              · rw [if_pos hve]
                refine ih _ _ _ x dx hx' hrej ?_ hxma
                intro hmem
                rcases mem_values_setA _ _ _ _ hmem with h | h
                · exact hxtm h
                · exact hxk h.symm
              · rw [if_neg hve]
                refine ih _ _ _ x dx hx' hrej hxtm ?_
                simp only [List.map_append, List.mem_append]
                rintro (h | h)
                · exact hxma h
                · simp only [List.map_cons, List.map_nil, List.mem_singleton] at h
                  exact hxk h.symm
        · simp only [hch, if_false]
          exact ih fs tm ma x dx hx hrej hxtm hxma

/-! ## Claim C2: the seed/follower partition -/

/-- C2 (amended) — For every input collection in which no file key is the
empty string: after selection, (1) the template map's keys are distinct
and every template path `t` resolves to exactly the first file in
collection iteration order that the check selects and whose layout
resolves to `t` (and to nothing when no selected file resolves to `t`);
(2) seed file keys and follower file keys are disjoint; (3) a key is a
seed or a follower exactly when its file is selected; (4) hence the
followers are exactly the selected non-seed files.  (Without the empty-key
proviso the truthiness seed test `!templates[template]` mistakes a stored
empty-string seed key for an absent entry, see the counterexample.) -/
theorem c2_selection_partition (cfg : Config) (files : Files)
    (fs' : Files) (tm : List (String × String)) (ma : List (String × FileRec))
    (hnd : (files.map Prod.fst).Nodup)
    (hne : ∀ p ∈ files, p.1 ≠ "")
    (hsel : select cfg files = (fs', tm, ma, none)) :
    ((tm.map Prod.fst).Nodup ∧
      ∀ t, lookupA tm t =
        ((files.filter (fun p => selTm cfg p = some t)).head?).map Prod.fst) ∧
    (∀ v ∈ tm.map Prod.snd, v ∉ ma.map Prod.fst) ∧
    (∀ k, (k ∈ tm.map Prod.snd ∨ k ∈ ma.map Prod.fst) ↔
      k ∈ (files.filter (fun p =>
        check cfg.pattern cfg.defId cfg.layoutKey p.1 p.2)).map Prod.fst) ∧
    (∀ k, k ∈ ma.map Prod.fst ↔
      (k ∈ (files.filter (fun p =>
        check cfg.pattern cfg.defId cfg.layoutKey p.1 p.2)).map Prod.fst ∧
        k ∉ tm.map Prod.snd)) := by
  have hlk := lookupA_self_of_nodup files hnd
  have hbridge := selectGo_eq_selPure cfg files files [] [] hnd hlk
  have hres : selPure cfg files [] [] = (tm, ma, none) := by
    rw [← hbridge]
    rw [show selectGo cfg (files.map Prod.fst) files [] [] =
      (fs', tm, ma, none) from hsel]
  have hmemsel : ∀ k : String,
      (k ∈ (files.filter (fun p =>
        check cfg.pattern cfg.defId cfg.layoutKey p.1 p.2)).map Prod.fst) ↔
      (∃ p, p ∈ files ∧ p.1 = k ∧
        check cfg.pattern cfg.defId cfg.layoutKey p.1 p.2 = true) := by
    intro k
    simp only [List.mem_map, List.mem_filter]
    constructor
    · rintro ⟨p, ⟨hp, hc⟩, hf⟩
      exact ⟨p, hp, hf, hc⟩
    · rintro ⟨p, hp, hf, hc⟩
      exact ⟨p, ⟨hp, hc⟩, hf⟩
  have hunion := selPure_union cfg files [] tm [] ma (by simp) hne hres
  have hdisj := selPure_disjoint cfg files [] tm [] ma (by simp) (by simp)
    (by simp) hnd hres
  refine ⟨⟨?_, ?_⟩, hdisj, ?_, ?_⟩
  · exact selPure_tmKeys_nodup cfg files [] tm [] ma (by simp) hne
      (by simp) hres
  · intro t
    exact (selPure_seed_lookup cfg files [] tm [] ma (by simp) hne hres t).2
      rfl
  · intro k
    rw [hmemsel k]
    have := hunion k
    simpa using this
  · intro k
    constructor
    · intro hk
      refine ⟨?_, fun hmem => hdisj k hmem hk⟩
      rw [hmemsel k]
      have := (hunion k).mp (Or.inr hk)
      simpa using this
    · rintro ⟨hksel, hknotm⟩
      rw [hmemsel k] at hksel
      have := (hunion k).mpr (by simpa using hksel)
      rcases this with h | h
      · exact absurd h hknotm
      · exact h

/-- C2 witness — two files `a.md`, `b.md` sharing layout `page.ejs`:
the partition theorem applies, and the template map resolves
`layouts/page.ejs` to `a.md`, the first selected file with that path. -/
theorem c2_witness :
    ((twoFiles.map Prod.fst).Nodup ∧ (∀ p ∈ twoFiles, p.1 ≠ "") ∧
      select (demoCfg false) twoFiles =
        (twoFiles, [("layouts/page.ejs", "a.md")],
          [("b.md", layoutRec "B" "page.ejs")], none)) ∧
    lookupA [("layouts/page.ejs", "a.md")] "layouts/page.ejs" =
      ((twoFiles.filter (fun p =>
        selTm (demoCfg false) p = some "layouts/page.ejs")).head?).map
          Prod.fst :=
  ⟨⟨by decide, by decide, by decide⟩,
   (c2_selection_partition (demoCfg false) twoFiles twoFiles
      [("layouts/page.ejs", "a.md")] [("b.md", layoutRec "B" "page.ejs")]
      (by decide) (by decide) (by decide)).1.2 "layouts/page.ejs"⟩

/-- C2 counterexample — with an empty-string file key the claim fails on
the code: both files of `emptyKeyFiles` are selected and share one
template path, and the empty-keyed file comes first, yet after selection
the seed is `a.md` (the stored seed key `""` is falsy, so
`!templates[template]` treats the template as unseen and overwrites it)
and the follower map is empty: the first selected file is not the seed,
and the seed/follower union misses the selected key `""`. -/
theorem c2_counterexample :
    check (demoCfg false).pattern (demoCfg false).defId
      (demoCfg false).layoutKey "" (layoutRec "E" "page.ejs") = true ∧
    (select (demoCfg false) emptyKeyFiles).2.1 =
      [("layouts/page.ejs", "a.md")] ∧
    (select (demoCfg false) emptyKeyFiles).2.2.1 = [] := by
  exact ⟨by decide, by decide, by decide⟩

/-! ## Claim C1: phase-1 failure aborts phase 2 -/

/-- C1 (amended) — For every run over a collection with distinct keys in
which phase 1 (the seed renders) reports an error: the run surfaces
exactly that phase-1 error (the first seed error in iteration order) with
the collection state reached by phase 1, and — provided no seed's rename
target coincides with a follower key (in particular whenever `rename` is
disabled) — every follower binding is exactly its post-selection binding:
phase 2 never starts and no follower file's `contents` is touched.  (The
rename proviso is forced: a successful seed render can overwrite a
follower's binding before another seed fails, see the counterexample.) -/
theorem c1_phase1_failure_aborts_phase2
    (R : String → List (String × Val) → Option String) (cfg : Config)
    (md : List (String × Val)) (files fs0 fs1 : Files)
    (tm : List (String × String)) (ma : List (String × FileRec)) (e : RunErr)
    (hnd : (files.map Prod.fst).Nodup)
    (hsel : select cfg files = (fs0, tm, ma, none))
    (hp1 : runPhase (convert R cfg md) (tm.map Prod.snd) fs0 = (fs1, some e))
    (hnc : ∀ s ∈ tm.map Prod.snd, ∀ f ∈ ma.map Prod.fst,
      renameTarget cfg.rename s ≠ f) :
    runPlugin R cfg md files = (fs1, some e) ∧
    ∀ f ∈ ma.map Prod.fst, lookupF fs1 f = lookupF fs0 f := by
  constructor
  · unfold runPlugin
    rw [hsel]
    dsimp only
    rw [hp1]
  · have hlk := lookupA_self_of_nodup files hnd
    have hbridge := selectGo_eq_selPure cfg files files [] [] hnd hlk
    have hres : selPure cfg files [] [] = (tm, ma, none) := by
      rw [← hbridge]
      rw [show selectGo cfg (files.map Prod.fst) files [] [] =
        (fs0, tm, ma, none) from hsel]
    have hdisj := selPure_disjoint cfg files [] tm [] ma (by simp) (by simp)
      (by simp) hnd hres
    intro f hf
    have hfns : f ∉ tm.map Prod.snd := fun hmem => hdisj f hmem hf
    have hfr : ∀ s ∈ tm.map Prod.snd, renameTarget cfg.rename s ≠ f :=
      fun s hs => hnc s hs f hf
    have hframe := runPhase_frame R cfg md (tm.map Prod.snd) fs0 f hfns hfr
    rw [hp1] at hframe
    exact hframe

/-- C1 witness — two files share the layout `page.ejs`, the renderer
always fails: the seed render of `a.md` fails in phase 1, the run
surfaces that error, and the follower `b.md` keeps its post-selection
binding. -/
theorem c1_witness :
    ((twoFiles.map Prod.fst).Nodup ∧
      select (demoCfg false) twoFiles =
        (twoFiles, [("layouts/page.ejs", "a.md")],
          [("b.md", layoutRec "B" "page.ejs")], none) ∧
      runPhase (convert demoFailR (demoCfg false) [])
          ([("layouts/page.ejs", "a.md")].map Prod.snd) twoFiles =
        (twoFiles, some (.render (some "page.ejs") "a.md")) ∧
      (∀ s ∈ [("layouts/page.ejs", "a.md")].map Prod.snd,
        ∀ f ∈ [("b.md", layoutRec "B" "page.ejs")].map Prod.fst,
          renameTarget (demoCfg false).rename s ≠ f)) ∧
    (runPlugin demoFailR (demoCfg false) [] twoFiles =
      (twoFiles, some (.render (some "page.ejs") "a.md")) ∧
    ∀ f ∈ [("b.md", layoutRec "B" "page.ejs")].map Prod.fst,
      lookupF twoFiles f = lookupF twoFiles f) :=
  ⟨⟨by decide, by decide, by decide, by decide⟩,
   c1_phase1_failure_aborts_phase2 demoFailR (demoCfg false) [] twoFiles
     twoFiles twoFiles [("layouts/page.ejs", "a.md")]
     [("b.md", layoutRec "B" "page.ejs")]
     (.render (some "page.ejs") "a.md")
     (by decide) (by decide) (by decide) (by decide)⟩

/-- C1 counterexample — with `rename` enabled the claim as stated fails:
in `collideFiles`, `a.html` is a follower of `page.ejs` (shown first), the
run ends with the phase-1 error of the seed `b.md` of `broken.ejs` so
phase 2 never runs, and yet the follower's binding after the run differs
from its post-selection binding — the successful seed render of `a.md`
renamed onto the follower key `a.html` during phase 1. -/
theorem c1_counterexample :
    (select (demoCfg true) collideFiles).2.2.1.map Prod.fst = ["a.html"] ∧
    (runPlugin brokenR (demoCfg true) [] collideFiles).2 =
      some (.render (some "broken.ejs") "b.html") ∧
    lookupF (runPlugin brokenR (demoCfg true) [] collideFiles).1 "a.html" ≠
      lookupF (select (demoCfg true) collideFiles).1 "a.html" := by
  exact ⟨by decide, by decide, by decide⟩

/-! ## Claim C9: rejected files are untouched -/

/-- C9 (amended) — For every file the selection check rejects, its binding
— `contents` and every other field — is unchanged after a run, provided no
other key's rename target equals the rejected file's key (in particular
whenever `rename` is disabled).  (The proviso is forced: a selected file
renamed onto the rejected file's key overwrites it, see the
counterexample.) -/
theorem c9_rejected_file_unchanged
    (R : String → List (String × Val) → Option String) (cfg : Config)
    (md : List (String × Val)) (files : Files) (x : String) (dx : FileRec)
    (hx : lookupF files x = some dx)
    (hrej : check cfg.pattern cfg.defId cfg.layoutKey x dx = false)
    (hnc : ∀ k, renameTarget cfg.rename k = x → k = x) :
    lookupF (runPlugin R cfg md files).1 x = some dx := by
  unfold runPlugin
  cases hsel : select cfg files with
  | mk fs0 rest =>
    obtain ⟨tm, ma, err⟩ := rest
    have hselgo := selectGo_rejected cfg (files.map Prod.fst) files [] [] x dx
      hx hrej (by simp) (by simp)
    rw [show selectGo cfg (files.map Prod.fst) files [] [] =
      (fs0, tm, ma, err) from hsel] at hselgo
    obtain ⟨hx0, hxtm, hxma⟩ := hselgo
    cases err with
    | some e =>
      dsimp only
      exact hx0
    | none =>
      dsimp only
      have htmr : ∀ k ∈ tm.map Prod.snd, renameTarget cfg.rename k ≠ x := by
        intro k hk hh
        exact hxtm ((hnc k hh) ▸ hk)
      have hp1frame := runPhase_frame R cfg md (tm.map Prod.snd) fs0 x hxtm htmr
      cases hph : runPhase (convert R cfg md) (tm.map Prod.snd) fs0 with
      | mk fs1 e1 =>
        rw [hph] at hp1frame
        dsimp only at hp1frame
        cases e1 with
        | some e =>
          dsimp only
          rw [hp1frame]
          exact hx0
        | none =>
          dsimp only
          have hmar : ∀ k ∈ ma.map Prod.fst, renameTarget cfg.rename k ≠ x := by
            intro k hk hh
            exact hxma ((hnc k hh) ▸ hk)
          have hp2frame := runPhase_frame R cfg md (ma.map Prod.fst) fs1 x
            hxma hmar
          rw [hp2frame, hp1frame]
          exact hx0

/-- C9 witness — without rename, a run over `post.md` (selected) and
`skip.txt` (rejected: no pattern match possible, no layout, no default)
leaves the rejected file's whole record unchanged. -/
theorem c9_witness :
    (lookupF [("post.md", layoutRec "P" "page.ejs"),
        ("skip.txt", plainRec "orig")] "skip.txt" = some (plainRec "orig") ∧
      check (demoCfg false).pattern (demoCfg false).defId
        (demoCfg false).layoutKey "skip.txt" (plainRec "orig") = false) ∧
    lookupF (runPlugin demoR (demoCfg false) []
      [("post.md", layoutRec "P" "page.ejs"),
       ("skip.txt", plainRec "orig")]).1 "skip.txt" =
      some (plainRec "orig") :=
  ⟨⟨by decide, by decide⟩,
   c9_rejected_file_unchanged demoR (demoCfg false) []
     [("post.md", layoutRec "P" "page.ejs"), ("skip.txt", plainRec "orig")]
     "skip.txt" (plainRec "orig") (by decide) (by decide) (fun _ h => h)⟩

/-- C9 counterexample — the claim as stated fails with rename enabled: in
`overwriteFiles` the check rejects `post.html`, yet after a successful run
the selected `post.md` has been renamed onto the key `post.html`, whose
binding no longer holds the rejected file's record. -/
theorem c9_counterexample :
    check (demoCfg true).pattern (demoCfg true).defId
      (demoCfg true).layoutKey "post.html" (plainRec "orig") = false ∧
    lookupF overwriteFiles "post.html" = some (plainRec "orig") ∧
    lookupF (runPlugin demoR (demoCfg true) [] overwriteFiles).1 "post.html" ≠
      some (plainRec "orig") := by
  exact ⟨by decide, by decide, by decide⟩

end MetalsmithLayouts
